import Mathlib

/-!
Verification of the task-orchestration core: a shallow embedding of the task
state machine, the contract impact analyzer, the monitor's deduplication and
event reactor, and the agentic execution pipeline, with theorems settling the
specification's claims about them.

Conventions of the embedding:
* JS strings are modelled as Lean `String` / `List Char`; regex scans are
  implemented as explicit character scanners specialised to the concrete
  patterns of the source (ASCII interpretation of `\s`, `\w`).
* Database rows are lists of records; a Prisma `update` by id is a `map` over
  the list; `undefined` fields in Prisma update data (which Prisma skips) are
  modelled with an outer `Option`.
* External effects (LLM calls, filesystem, shell, git) are inputs: an
  environment record carries each call's outcome, and the pipeline is the pure
  control flow of the source over those outcomes.
-/

/-- Task lifecycle states (`todo | in_progress | blocked | review | done`). -/
inductive Status where
  | todo
  | in_progress
  | blocked
  | review
  | done
deriving DecidableEq, Repr

/-- A task row: id, title, status, blocked-reason (nullable). (Named `TaskRec`
because Lean core already has a `Task` type.) -/
structure TaskRec where
  id : Nat
  title : String
  status : Status
  blockedReason : Option String
deriving DecidableEq, Repr

/-- A task-to-task dependency edge: `toTask` requires `fromTask` done. -/
structure TaskDep where
  fromTaskId : Nat
  toTaskId : Nat
deriving DecidableEq, Repr

/-- A task-to-contract dependency edge. -/
structure TaskContractDep where
  taskId : Nat
  contractId : Nat
deriving DecidableEq, Repr

/-- `prisma.task.update({ where: { id }, data: f })`: rewrite every row with
the given id. -/
def updateTask (ts : List TaskRec) (tid : Nat) (f : TaskRec → TaskRec) : List TaskRec :=
  ts.map (fun t => if t.id == tid then f t else t)

/-- `prisma.task.findUnique({ where: { id } })` over a list store. -/
def findTask (ts : List TaskRec) (tid : Nat) : Option TaskRec :=
  ts.find? (fun t => t.id == tid)

/-- `fromTask.status === "done"` for the row with the given id (`false` if the
row is absent, which the DB's foreign keys rule out). -/
def isDoneIn (ts : List TaskRec) (tid : Nat) : Bool :=
  match findTask ts tid with
  | some t => t.status == Status.done
  | none => false

/-- JS `haystack.includes(needle)` (substring test). -/
def substrB (needle hay : String) : Bool :=
  decide (needle.toList <:+: hay.toList)

/-- JS `s.startsWith(pre)`. -/
def startsWithB (pre s : String) : Bool :=
  decide (pre.toList <+: s.toList)

/-- ASCII reading of the JS `\s` class / `trim` whitespace. -/
def isSpaceChar (c : Char) : Bool := c.isWhitespace

/-- The JS `\w` class `[A-Za-z0-9_]`. -/
def isWordChar (c : Char) : Bool := c.isAlphanum || c == '_'

/-- Strip leading and trailing whitespace from a character list. -/
def trimChars (l : List Char) : List Char :=
  ((l.dropWhile isSpaceChar).reverse.dropWhile isSpaceChar).reverse

/-- JS `s.trim()`. -/
def trimS (s : String) : String := (trimChars s.toList).asString

/-- JS `s.toLowerCase()` (ASCII letters). -/
def lowerS (s : String) : String := (s.toList.map Char.toLower).asString

/-- JS `s.split("\n")`, accumulator-based. -/
def splitLinesAux : List Char → List Char → List String
  | acc, [] => [acc.reverse.asString]
  | acc, c :: rest =>
    if c == '\n' then acc.reverse.asString :: splitLinesAux [] rest
    else splitLinesAux (c :: acc) rest

/-- JS `s.split("\n")`. -/
def splitLines (s : String) : List String := splitLinesAux [] s.toList

/-- `new Set(list)` viewed as the list of distinct elements in first-insertion
order (later duplicates of an earlier element are dropped). -/
def dedupFirst {α : Type} [DecidableEq α] : List α → List α
  | [] => []
  | a :: l => a :: (dedupFirst l).filter (fun x => x ≠ a)

/-- One global-scan step of the JS regex `/\/[a-zA-Z0-9\/_{}]+/g`: the class of
the bracket expression (letters, digits, and the four punctuation chars). -/
def isPathChar (c : Char) : Bool :=
  c.isAlphanum || c == '/' || c == '_' || c == '{' || c == '}'

/-- Global scan for `/\/[a-zA-Z0-9\/_{}]+/g`: at each index, a match is a
literal `/` followed by a maximal nonempty run of path characters; matches are
non-overlapping and scanning resumes after each match. Fuel is the input
length; every step consumes at least one character, so it never runs out
before the input does. -/
def pathTokensAux : Nat → List Char → List String
  | 0, _ => []
  | _, [] => []
  | fuel + 1, c :: rest =>
    if c == '/' then
      let run := rest.takeWhile isPathChar
      if run.isEmpty then pathTokensAux fuel rest
      else (('/' :: run).asString) :: pathTokensAux fuel (rest.drop run.length)
    else pathTokensAux fuel rest

/-- `oldContent.match(/\/[a-zA-Z0-9\/_{}]+/g) ?? []`. -/
def pathTokens (s : String) : List String := pathTokensAux s.toList.length s.toList

/-- Drop an exact literal from the head of the input, or fail. -/
def dropLit : List Char → List Char → Option (List Char)
  | [], l => some l
  | _, [] => none
  | a :: w, c :: l => if a == c then dropLit w l else none

/-- Match `\s+` at the head: the maximal nonempty whitespace run; returns the
consumed run and the remainder. -/
def matchWs1 (l : List Char) : Option (List Char × List Char) :=
  let sp := l.takeWhile isSpaceChar
  if sp.isEmpty then none else some (sp, l.drop sp.length)

/-- Match `\w+` at the head: the maximal nonempty word-character run. -/
def matchWord1 (l : List Char) : Option (List Char × List Char) :=
  let run := l.takeWhile isWordChar
  if run.isEmpty then none else some (run, l.drop run.length)

/-- Match `kw\s+` at the head (a keyword literal followed by whitespace). -/
def matchKwWs (kw : String) (l : List Char) : Option (List Char × List Char) :=
  match dropLit kw.toList l with
  | none => none
  | some r =>
    match matchWs1 r with
    | none => none
    | some (sp, r2) => some (kw.toList ++ sp, r2)

/-- Match `(?:interface\s+|class\s+|function\s+|const\s+)?(\w+)` at the head,
with the regex backtracking order: try each keyword alternative (each must be
followed by whitespace and a captured word), else skip the optional group and
capture a bare word. Returns (consumed, captured name, remainder). -/
def matchOptKwName (l : List Char) : Option (List Char × List Char × List Char) :=
  (["interface", "class", "function", "const"].firstM (fun kw =>
    match matchKwWs kw l with
    | none => none
    | some (c1, r1) =>
      match matchWord1 r1 with
      | none => none
      | some (nm, r2) => some (c1 ++ nm, nm, r2)))
  <|>
  (match matchWord1 l with
   | none => none
   | some (nm, r) => some (nm, nm, r))

/-- Match `(?:type\s+)?(?:interface\s+|...)?(\w+)` at the head, with
backtracking: prefer consuming `type\s+`, and fall back to not consuming it if
the remainder then fails. -/
def matchAfterExportWs (l : List Char) : Option (List Char × List Char × List Char) :=
  (match matchKwWs "type" l with
   | none => none
   | some (c1, r1) =>
     match matchOptKwName r1 with
     | none => none
     | some (c2, nm, r2) => some (c1 ++ c2, nm, r2))
  <|> matchOptKwName l

/-- Try the whole pattern
`export\s+(?:type\s+)?(?:interface\s+|class\s+|function\s+|const\s+)?(\w+)`
anchored at the head. Returns (full match text, captured name, remainder). -/
def matchExportAt (l : List Char) : Option (List Char × List Char × List Char) :=
  match dropLit "export".toList l with
  | none => none
  | some r0 =>
    match matchWs1 r0 with
    | none => none
    | some (sp, r1) =>
      match matchAfterExportWs r1 with
      | none => none
      | some (c, nm, r2) => some ("export".toList ++ sp ++ c, nm, r2)

/-- Global scan (`String.prototype.match` with the `g` flag) for the export
pattern: leftmost non-overlapping matches, resuming after each match. Fuel is
the input length; every step consumes at least one character (a match is at
least 8 characters long), so the fuel never runs out before the input does. -/
def exportScanAux : Nat → List Char → List (List Char × List Char)
  | 0, _ => []
  | _, [] => []
  | fuel + 1, l =>
    match matchExportAt l with
    | some (full, nm, r2) => (full, nm) :: exportScanAux fuel r2
    | none =>
      match l with
      | [] => []
      | _ :: rest => exportScanAux fuel rest

/-- All matches of the export pattern: (full text, captured symbol name). -/
def exportScan (s : String) : List (List Char × List Char) :=
  exportScanAux s.toList.length s.toList

/-- `oldContent.match(/export\s+(?:type\s+)?(?:interface\s+|class\s+|function\s+|const\s+)?(\w+)/g) ?? []`
— note `String.match` with `g` returns the FULL match texts, not the capture
groups. -/
def exportMatchTexts (s : String) : List String :=
  (exportScan s).map (fun m => m.1.asString)

/-- The trimmed non-blank lines of a content string
(`content.split("\n").map((l) => l.trim()).filter(Boolean)`). -/
def trimmedLines (s : String) : List String :=
  ((splitLines s).map trimS).filter (fun l => l ≠ "")

/-- The `Set` of trimmed non-blank lines, as a distinct list. -/
def distinctTrimmedLines (s : String) : List String := dedupFirst (trimmedLines s)

/-- The count of distinct old lines absent from the new content's line set. -/
def removedLineCount (oldContent newContent : String) : Nat :=
  ((distinctTrimmedLines oldContent).filter
    (fun l => !((trimmedLines newContent).contains l))).length

/-- `detectBreakingChange(type, oldContent, newContent)` from the contracts
route. The final comparison `removedCount > oldLines.size * 0.2` is a JS
double comparison between an integer and `size * 0.2`; for every size below
2^50 it coincides exactly with `5 * removedCount > size`, which is how it is
written here. -/
def detectBreakingChange (ctype oldContent newContent : String) : Bool :=
  if ctype == "openapi" then
    let oldPaths := pathTokens oldContent
    let newPaths := pathTokens newContent
    oldPaths.any (fun p => !(newPaths.contains p))
  else if ctype == "typescript" then
    let oldExports := exportMatchTexts oldContent
    oldExports.any (fun e => !(substrB e newContent))
  else
    5 * removedLineCount oldContent newContent > (distinctTrimmedLines oldContent).length

/-- The `breaking` flag stored by `POST /contracts/:id/publish`: the explicit
flag, or — when it is `false` — the heuristic against the current version's
content when a current version exists. -/
def publishBreaking (explicitBreaking : Bool) (currentContent : Option String)
    (ctype newContent : String) : Bool :=
  if explicitBreaking then explicitBreaking
  else
    match currentContent with
    | some old => detectBreakingChange ctype old newContent
    | none => explicitBreaking

/-- The claim's (spec-side) reading of the typescript heuristic: breaking iff
some previously exported SYMBOL NAME (the capture group, not the full matched
declaration text) no longer appears as a substring of the new content. Used
only to compare the claim's wording against the code. -/
def specTsSymbolBreaking (oldContent newContent : String) : Bool :=
  ((exportScan oldContent).map (fun m => m.2.asString)).any
    (fun nm => !(substrB nm newContent))

/-- `shouldEmitSignal(key, cooldownMs)` from the monitor, for a single key:
`last` is the key's entry in `lastSignalAt` (`none` when absent; the code
reads it with `?? 0`); returns (emit?, new entry). The timestamp is recorded
only when the emission is permitted. -/
def shouldEmitSignal (last : Option Int) (now cooldownMs : Int) : Bool × Option Int :=
  let l := last.getD 0
  if now - l < cooldownMs then (false, last)
  else (true, some now)

/-- Repeated emissions of one key at the given times, threading the cooldown
entry through `shouldEmitSignal`; returns the permit flag of each emission. -/
def emitTrace (cooldownMs : Int) : Option Int → List Int → List Bool
  | _, [] => []
  | last, t :: ts =>
    let r := shouldEmitSignal last t cooldownMs
    r.1 :: emitTrace cooldownMs r.2 ts

/-- One event of `processNewEvents`: `st` is the `processedEvents` set as a
list in insertion order. Returns the new set and whether the event's side
effects (`masterHandleEvent`) ran. Already-seen ids are skipped; after adding
an id, if the set size exceeds 10000 the oldest 5000 ids are evicted
(`[...processedEvents].slice(0, 5000)` in insertion order). -/
def reactorStep (st : List Nat) (id : Nat) : List Nat × Bool :=
  if st.contains id then (st, false)
  else
    let st1 := st ++ [id]
    let st2 := if st1.length > 10000 then st1.drop 5000 else st1
    (st2, true)

/-- Run the reactor over a sequence of polled event ids (the concatenation of
successive polls), recording for each occurrence whether its side effects
ran. -/
def reactorRun : List Nat → List Nat → List Nat × List (Nat × Bool)
  | st, [] => (st, [])
  | st, id :: rest =>
    let r := reactorStep st id
    let rest' := reactorRun r.1 rest
    (rest'.1, (id, r.2) :: rest'.2)

/-- How many times the reactor ran the side effects of the given event id over
a poll sequence, starting from an empty processed set. -/
def effectCount (ids : List Nat) (target : Nat) : Nat :=
  ((reactorRun [] ids).2.filter (fun p => p.1 == target && p.2)).length

/-- `POST /tasks/:id/status`: the Prisma update
`{ status, blockedReason: status === "blocked" ? data.blockedReason : null }`.
`data.blockedReason` is optional in the request schema; when the requested
status is `blocked` and no reason is supplied the update passes `undefined`,
which Prisma skips, leaving the stored reason unchanged. -/
def postTaskStatus (task : TaskRec) (newStatus : Status) (reqReason : Option String) : TaskRec :=
  let reasonData : Option (Option String) :=
    if newStatus == Status.blocked then
      match reqReason with
      | some r => some (some r)   -- set to the supplied string
      | none => none              -- undefined: field skipped by Prisma
    else some none                -- null: field cleared
  { task with
    status := newStatus
    blockedReason :=
      match reasonData with
      | none => task.blockedReason
      | some v => v }

/-- The spec's blocked-reason invariant: status = blocked ⇔ reason ≠ null. -/
def blockedReasonInvariant (t : TaskRec) : Prop :=
  t.status = Status.blocked ↔ t.blockedReason ≠ none

/-- The blocked-reason string written by the impact analyzer:
`Contract "${name}" updated (v${version}): ${summary}`. -/
def mkContractBlockReason (name : String) (version : Nat) (summary : String) : String :=
  "Contract \"" ++ name ++ "\" updated (v" ++ toString version ++ "): " ++ summary

/-- The impact analyzer's blocking update:
`{ status: "blocked", blockedReason: reason }`. -/
def blockWith (reason : String) (t : TaskRec) : TaskRec :=
  { t with status := Status.blocked, blockedReason := some reason }

/-- One iteration of the impact analyzer's `// Block impacted tasks` loop:
`snap` is the task row as fetched at the start (with the `taskDeps` join);
rows already `done` or `blocked` are left unchanged. -/
def contractBlockStep (reason : String) (st : List TaskRec) (snap : TaskRec) : List TaskRec :=
  if snap.status ≠ Status.done ∧ snap.status ≠ Status.blocked then
    updateTask st snap.id (blockWith reason)
  else st

/-- `masterHandleContractPublished`, restricted to its task-store effects and
its breaking-change room alert: returns the task store after the blocking
loop, and whether the high-severity global alert is emitted
(`breaking && impactedTasks.length > 0`). The blocking loop itself does not
consult `breaking`. -/
def masterHandleContractPublished (contractId : Nat) (name : String) (version : Nat)
    (breaking : Bool) (summary : String) (deps : List TaskContractDep)
    (tasks : List TaskRec) : List TaskRec × Bool :=
  let impacted := (deps.filter (fun d => d.contractId == contractId)).filterMap
    (fun d => findTask tasks d.taskId)
  let reason := mkContractBlockReason name version summary
  (impacted.foldl (contractBlockStep reason) tasks,
   breaking && decide (0 < impacted.length))

/-- `task.blockedReason?.includes("dependency")` (optional chaining: a null
reason is falsy). -/
def reasonMentionsDependency (t : TaskRec) : Bool :=
  match t.blockedReason with
  | some r => substrB "dependency" r
  | none => false

/-- The resolver's unblocking update: `{ status: "todo", blockedReason: null }`. -/
def unblockToTodo (t : TaskRec) : TaskRec :=
  { t with status := Status.todo, blockedReason := none }

/-- One iteration of `checkDependencyResolution`'s loop over the dependents of
the completed task. `snap` is the dependent row as fetched at the start (the
`toTask` join); `cur` is the live store, against which the per-iteration
`allDeps` fetch reads the from-task statuses. -/
def depResolutionStep (deps : List TaskDep) (cur : List TaskRec) (snap : TaskRec) : List TaskRec :=
  if snap.status ≠ Status.blocked then cur
  else
    let allDeps := deps.filter (fun d => d.toTaskId == snap.id)
    let allComplete := allDeps.all (fun d => isDoneIn cur d.fromTaskId)
    if allComplete ∧ reasonMentionsDependency snap then
      updateTask cur snap.id unblockToTodo
    else cur

/-- `checkDependencyResolution(roomId, completedTaskId)`: fetch the dependency
edges out of the completed task with their to-task rows, then run the loop. -/
def checkDependencyResolution (tasks : List TaskRec) (deps : List TaskDep)
    (completedTaskId : Nat) : List TaskRec :=
  let dependents := deps.filter (fun d => d.fromTaskId == completedTaskId)
  let snaps := dependents.filterMap (fun d => findTask tasks d.toTaskId)
  snaps.foldl (depResolutionStep deps) tasks

/-- The claim's unblocking condition for a dependent task `t` of the completed
task: `t` is currently blocked, every from-task of its dependency edges is
done, and its blocked reason mentions a dependency. -/
def shouldUnblock (tasks : List TaskRec) (deps : List TaskDep) (completedTaskId : Nat)
    (t : TaskRec) : Bool :=
  deps.any (fun d => d.fromTaskId == completedTaskId && d.toTaskId == t.id)
  && t.status == Status.blocked
  && (deps.filter (fun d => d.toTaskId == t.id)).all (fun d => isDoneIn tasks d.fromTaskId)
  && reasonMentionsDependency t

/-- `isSafeVerificationCommand(cmd)`: lowercase-trimmed command must avoid the
blocked tokens and start with a known runner. -/
def isSafeVerificationCommand (cmd : String) : Bool :=
  let normalized := lowerS (trimS cmd)
  let blockedTokens := ["rm -rf", "sudo", "shutdown", "reboot", "mkfs", "dd if=", "curl |", "wget |"]
  if blockedTokens.any (fun t => substrB t normalized) then false
  else
    ["npm run", "npm test", "pnpm run", "pnpm test", "yarn ", "npx ",
     "pytest", "go test", "cargo test", "cargo check", "tsc"].any
      (fun p => startsWithB p normalized)

/-- The capture class `[a-zA-Z0-9:_-]` of `extractRunScriptName`'s regexes. -/
def isScriptChar (c : Char) : Bool :=
  c.isAlphanum || c == ':' || c == '_' || c == '-'

/-- Match `lead` then `\s+run\s+([a-zA-Z0-9:_-]+)` anchored at the head,
returning the captured script name. -/
def matchRunScript (lead : String) (l : List Char) : Option String :=
  match dropLit lead.toList l with
  | none => none
  | some r0 =>
    match matchWs1 r0 with
    | none => none
    | some (_, r1) =>
      match dropLit "run".toList r1 with
      | none => none
      | some r2 =>
        match matchWs1 r2 with
        | none => none
        | some (_, r3) =>
          let nm := r3.takeWhile isScriptChar
          if nm.isEmpty then none else some nm.asString

/-- Match `yarn\s+([a-zA-Z0-9:_-]+)` anchored at the head. -/
def matchYarnDirect (l : List Char) : Option String :=
  match dropLit "yarn".toList l with
  | none => none
  | some r0 =>
    match matchWs1 r0 with
    | none => none
    | some (_, r1) =>
      let nm := r1.takeWhile isScriptChar
      if nm.isEmpty then none else some nm.asString

/-- `extractRunScriptName(cmd)`: the script name of an
`npm run` / `pnpm run` / `yarn run` / direct `yarn` invocation, if any. -/
def extractRunScriptName (cmd : String) : Option String :=
  let t := trimChars cmd.toList
  match matchRunScript "npm" t with
  | some s => some s
  | none =>
    match matchRunScript "pnpm" t with
    | some s => some s
    | none =>
      match matchRunScript "yarn" t with
      | some s => some s
      | none =>
        match matchYarnDirect t with
        | some s => if s ≠ "run" then some s else none
        | none => none

/-- The `/\bNODE_ENV\s*=/i` test: somewhere in the command, `NODE_ENV`
(case-insensitively) at a word boundary, followed by optional whitespace and
`=`. `prev` is the character before the scan position. -/
def hasNodeEnvAssignAux : Option Char → List Char → Bool
  | _, [] => false
  | prev, l@(c :: rest) =>
    let boundary := match prev with
      | none => true
      | some p => !(isWordChar p)
    let hit := boundary &&
      (match dropLit "node_env".toList (l.map Char.toLower) with
       | none => false
       | some r => ((r.dropWhile isSpaceChar).head? == some '=') )
    hit || hasNodeEnvAssignAux (some c) rest

/-- `/\bNODE_ENV\s*=/i.test(cmd)`. -/
def hasNodeEnvAssign (cmd : String) : Bool := hasNodeEnvAssignAux none cmd.toList

/-- `canRunVerificationCommand(cwd, cmd)`. `pkgScripts` is the outcome of
reading and parsing `cwd/package.json`: `none` when the file is missing or
unparsable (the `catch` branch), `some names` the declared script names
otherwise (`pkg.scripts` missing parses to the empty list, which the
`!!pkg.scripts` guard also rejects). -/
def canRunVerificationCommand (pkgScripts : Option (List String)) (cmd : String) : Bool :=
  if !(isSafeVerificationCommand cmd) then false
  else if hasNodeEnvAssign cmd then false
  else
    match extractRunScriptName cmd with
    | none => true
    | some scriptName =>
      match pkgScripts with
      | none => false
      | some scripts => scripts.contains scriptName

/-- `getFallbackVerificationCommands(cwd)`: up to two `npm run` commands from
the priority list of declared scripts (missing/unparsable package.json reads
as no scripts). -/
def getFallbackVerificationCommands (pkgScripts : Option (List String)) : List String :=
  let scripts := pkgScripts.getD []
  let priorities := ["typecheck", "lint", "test", "build", "check"]
  ((priorities.filter (fun n => scripts.contains n)).take 2).map (fun n => "npm run " ++ n)

/-- A `before`/`after` target-file snapshot: relative path to content
(`none` for a missing/non-file path). -/
def snapLookup (m : List (String × Option String)) (k : String) : Option String :=
  match m.find? (fun p => p.1 == k) with
  | some p => p.2           -- the stored content (or null)
  | none => none            -- `map.get(key) ?? null` collapses absent to null

/-- `changedFilesFromSnapshots(before, after)`: the keys of either snapshot
whose looked-up content differs between the two. -/
def changedFilesFromSnapshots (before after : List (String × Option String)) : List String :=
  let keys := dedupFirst (before.map Prod.fst ++ after.map Prod.fst)
  keys.filter (fun k => snapLookup before k ≠ snapLookup after k)

/-- One verification-log entry of the execution pass: a command that ran, was
skipped as unsafe/undeclared, or ran and failed. -/
inductive VerifyLog where
  | ran (cmd : String)
  | skipped (cmd : String)
  | failed (cmd : String)
deriving DecidableEq, Repr

/-- Outcome of the pass's verification loop: the log entries, the first
failing command (which aborts the loop), and the commands actually executed. -/
structure VerifyOutcome where
  logs : List VerifyLog
  failedCmd : Option String
  executed : List String
deriving DecidableEq, Repr

/-- The verification loop of `runWorkerAgenticExecution`: skipped commands are
logged and do not stop the loop; the first executed command that fails stops
it. `runOk cmd` is the outcome `runShell` would have for `cmd`. -/
def runVerification (pkgScripts : Option (List String)) (runOk : String → Bool) :
    List String → VerifyOutcome
  | [] => ⟨[], none, []⟩
  | cmd :: rest =>
    if !(canRunVerificationCommand pkgScripts cmd) then
      let o := runVerification pkgScripts runOk rest
      ⟨VerifyLog.skipped cmd :: o.logs, o.failedCmd, o.executed⟩
    else if runOk cmd then
      let o := runVerification pkgScripts runOk rest
      ⟨VerifyLog.ran cmd :: o.logs, o.failedCmd, cmd :: o.executed⟩
    else
      ⟨[VerifyLog.failed cmd], some cmd, [cmd]⟩

/-- The patch plan returned by `makePatchPlan` (already sanitised). -/
structure PatchPlan where
  patch : String
  fileEdits : List (String × String)
  verificationCommands : List String
  progressSummary : String
deriving DecidableEq, Repr

/-- Outcome of `commitAndMaybePushRoomRepo`. -/
structure GitCommitResult where
  committed : Bool
  pushed : Bool
  commitSha : Option String
  pushError : Option String
deriving DecidableEq, Repr

/-- The outcomes of every external call one per-task execution pass can make:
the dependency rows' from-task statuses, the selected target files, the
before/after snapshots, the patch plans and their application outcomes
(`none` = the call threw), the package.json script names (`none` = missing or
unparsable), each verification command's shell outcome, and the git result. -/
structure ExecEnv where
  depStatuses : List Status
  targetFiles : List String
  beforeSnapshot : List (String × Option String)
  afterSnapshot : List (String × Option String)
  patchPlan : PatchPlan
  patchApplyOk : Bool
  patchApplyErr : String
  editsApplyResult : Option (List String)
  editsApplyErr : String
  retryPlan : PatchPlan
  retryApplyResult : Option (List String)
  pkgScripts : Option (List String)
  runCommandOk : String → Bool
  gitResult : GitCommitResult

/-- The patch/file-edit application chain of the pass: prefer the unified
diff; fall back to the plan's file edits; if the patch failed and the plan had
no file edits, regenerate a file-edit plan once and apply it. Returns
`some (usedFileEdits, appliedFiles)` on success, `none` when every attempt
failed (`applyMode` stays null). -/
def applyOutcome (env : ExecEnv) : Option (Bool × List String) :=
  if trimS env.patchPlan.patch ≠ "" ∧ env.patchApplyOk then some (false, [])
  else if env.patchPlan.fileEdits ≠ [] then
    match env.editsApplyResult with
    | some files => some (true, files)
    | none => none
  else if trimS env.patchPlan.patch ≠ "" then
    if env.retryPlan.fileEdits ≠ [] then
      match env.retryApplyResult with
      | some files => some (true, files)
      | none => none
    else none
  else none

/-- `String(firstApplyError)`: the patch error when a nonempty patch was
attempted (it is recorded first), otherwise the file-edit error. -/
def firstApplyErrText (env : ExecEnv) : String :=
  if trimS env.patchPlan.patch ≠ "" then env.patchApplyErr else env.editsApplyErr

/-- JS `s.slice(0, n)`. -/
def takeChars (n : Nat) (s : String) : String := (s.toList.take n).asString

/-- The blocked reason of the pass's no-op abort. -/
def noopBlockReason : String := "Agentic execution produced no effective code changes."

/-- The observable effects of one per-task iteration of
`runWorkerAgenticExecution`: the task row at the end, the worker-chat
messages sent, the `task.status.updated` events emitted (status and
blocked-reason detail), whether any workspace mutation was attempted
(patch/file-edit application or commit), and the execution-lock set after the
iteration. -/
structure PassEffects where
  task : TaskRec
  messages : List String
  statusEvents : List (Status × Option String)
  mutatedWorkspace : Bool
  locksAfter : List String
deriving Repr

/-- The `try` body of one per-task iteration of `runWorkerAgenticExecution`
(the room/task already resolved, the workspace ready): dependency gate,
bootstrap to `in_progress`, target selection, patch generation and
application, no-op detection, the verification loop, and commit, with every
abort path blocking the task with its specific reason. Returns (final task,
messages, status events, workspace mutated?). Long chat-message bodies are
abbreviated to their leading sentence. -/
def runTaskBody (task : TaskRec) (env : ExecEnv) :
    TaskRec × List String × List (Status × Option String) × Bool :=
  if env.depStatuses.any (fun s => s ≠ Status.done) then
    (task, ["Skipping \"" ++ task.title ++ "\" for now: waiting on dependency completion."],
     [], false)
  else
    let task1 :=
      if task.status = Status.todo ∨ task.status = Status.blocked then
        { task with status := Status.in_progress, blockedReason := none }
      else task
    let evs1 : List (Status × Option String) :=
      if task.status = Status.todo ∨ task.status = Status.blocked then
        [(Status.in_progress, none)]
      else []
    if env.targetFiles = [] then
      ({ task1 with
          status := Status.blocked,
          blockedReason := some "Agentic execution could not find safe target files for this task." },
       ["I could not map \"" ++ task.title ++ "\" to safe code files in this repo yet."],
       evs1 ++ [(Status.blocked, some "No safe target files identified.")], false)
    else if trimS env.patchPlan.patch = "" ∧ env.patchPlan.fileEdits = [] then
      (task1,
       ["I reviewed \"" ++ task.title ++ "\" but couldn't produce a safe code patch yet."],
       evs1, false)
    else
      match applyOutcome env with
      | none =>
        ({ task1 with
            status := Status.blocked,
            blockedReason := some ("Agentic patch failed: " ++ takeChars 500 (firstApplyErrText env)) },
         ["Patch application failed for \"" ++ task.title ++ "\"."],
         evs1 ++ [(Status.blocked, some "Agentic patch failed. See worker chat for details.")], true)
      | some _ =>
        let changed := changedFilesFromSnapshots env.beforeSnapshot env.afterSnapshot
        if changed = [] then
          ({ task1 with status := Status.blocked, blockedReason := some noopBlockReason },
           ["I attempted \"" ++ task.title ++ "\" but no effective file delta was produced in safe target files."],
           evs1 ++ [(Status.blocked, some "No effective code changes were produced.")], true)
        else
          let verificationCommands :=
            if env.patchPlan.verificationCommands ≠ [] then env.patchPlan.verificationCommands
            else getFallbackVerificationCommands env.pkgScripts
          let vres := runVerification env.pkgScripts env.runCommandOk verificationCommands
          match vres.failedCmd with
          | some cmd =>
            ({ task1 with
                status := Status.blocked,
                blockedReason := some ("Verification failed for command: " ++ cmd) },
             ["Code was edited for \"" ++ task.title ++ "\", but verification failed."],
             evs1 ++ [(Status.blocked, some ("Verification failed (" ++ cmd ++ ")."))], true)
          | none =>
            if !env.gitResult.committed then
              ({ task1 with
                  status := Status.blocked,
                  blockedReason := some "Agentic execution did not produce a commitable code delta." },
               ["I attempted \"" ++ task.title ++ "\" but there was still no commitable code delta."],
               evs1 ++ [(Status.blocked, some "No commitable code changes were produced.")], true)
            else
              ({ task1 with status := Status.review, blockedReason := none },
               ["I completed an autonomous coding pass for \"" ++ task.title ++ "\"."],
               evs1 ++ [(Status.review, none)], true)

/-- The execution-lock key `${roomId}:${task.id}`. -/
def lockKeyOf (roomId : String) (taskId : Nat) : String :=
  roomId ++ ":" ++ toString taskId

/-- One per-task iteration of `runWorkerAgenticExecution`, including the
execution-lock protocol around the body:
`if (executionLocks.has(lockKey)) continue;` — a held lock skips the task
silently — and otherwise the body runs inside
`try { ... } finally { executionLocks.delete(lockKey) }`, so the lock set is
restored whatever the body does. -/
def runWorkerTaskPass (locks : List String) (roomId : String) (env : ExecEnv)
    (task : TaskRec) : PassEffects :=
  let lockKey := lockKeyOf roomId task.id
  if locks.contains lockKey then
    { task := task, messages := [], statusEvents := [], mutatedWorkspace := false,
      locksAfter := locks }
  else
    let r := runTaskBody task env
    { task := r.1, messages := r.2.1, statusEvents := r.2.2.1, mutatedWorkspace := r.2.2.2,
      locksAfter := locks }

/-! ## Theorems -/

/-- **C9.** If a contract is published with `breaking` explicitly `false` and
the contract has no current version (first publish), the heuristic is not
applied and the stored `breaking` flag is `false`, whatever the contract type
and content. -/
theorem spec_c9_first_publish_not_breaking :
    ∀ (ctype newContent : String), publishBreaking false none ctype newContent = false :=
  fun _ _ => rfl

/-- **C2.** The blocked-reason invariant (status = blocked ⇔ reason ≠ null)
is violated by the code: `POST /tasks/:id/status` with body
`{ status: "blocked" }` (the optional `blockedReason` omitted) on a task whose
reason is null leaves the task blocked with a null reason, because the update
passes `undefined` for the field and Prisma skips it. -/
theorem spec_c2_invariant_violated :
    blockedReasonInvariant ⟨1, "t", Status.todo, none⟩
    ∧ postTaskStatus ⟨1, "t", Status.todo, none⟩ Status.blocked none
        = ⟨1, "t", Status.blocked, none⟩
    ∧ ¬ blockedReasonInvariant (postTaskStatus ⟨1, "t", Status.todo, none⟩ Status.blocked none) := by
  refine ⟨?_, rfl, ?_⟩
  · unfold blockedReasonInvariant
    simp
  · unfold blockedReasonInvariant postTaskStatus
    simp

/-- **C6.** The signal-deduplication check permits an emission iff at least
the cooldown has elapsed since the last permitted emission (the map entry,
absent read as 0), and records the timestamp only on permitted emissions;
hence two emissions of one key within the window yield one alert and a third
after the window yields a second. -/
theorem spec_c6_signal_dedup :
    (∀ (last : Option Int) (now w : Int),
        ((shouldEmitSignal last now w).1 = true ↔ w ≤ now - last.getD 0)
        ∧ (shouldEmitSignal last now w).2 = (if w ≤ now - last.getD 0 then some now else last))
    ∧ (∀ (w t1 t2 t3 : Int), w ≤ t1 → t2 - t1 < w → w ≤ t3 - t1 →
        emitTrace w none [t1, t2, t3] = [true, false, true]) := by
  constructor
  · intro last now w
    unfold shouldEmitSignal
    by_cases h : now - last.getD 0 < w
    · simp only [if_pos h]
      exact ⟨by simp; omega, by rw [if_neg (by omega)]⟩
    · simp only [if_neg h]
      exact ⟨by simp; omega, by rw [if_pos (by omega)]⟩
  · intro w t1 t2 t3 h1 h2 h3
    have s1 : shouldEmitSignal none t1 w = (true, some t1) := by
      unfold shouldEmitSignal
      simp only [Option.getD_none]
      rw [if_neg (by omega)]
    have s2 : shouldEmitSignal (some t1) t2 w = (false, some t1) := by
      unfold shouldEmitSignal
      simp only [Option.getD_some]
      rw [if_pos (by omega)]
    have s3 : shouldEmitSignal (some t1) t3 w = (true, some t3) := by
      unfold shouldEmitSignal
      simp only [Option.getD_some]
      rw [if_neg (by omega)]
    simp [emitTrace, s1, s2, s3]

/-- Witness for `spec_c6_signal_dedup` at cooldown 10 and times 10, 15, 25. -/
theorem spec_c6_signal_dedup_witness :
    (10 : Int) ≤ 10 ∧ (15 : Int) - 10 < 10 ∧ (10 : Int) ≤ 25 - 10
    ∧ emitTrace 10 none [10, 15, 25] = [true, false, true] :=
  ⟨by decide, by decide, by decide,
   spec_c6_signal_dedup.2 10 10 15 25 (by decide) (by decide) (by decide)⟩

/-- **C4 counterexample.** The claim reads the typescript heuristic as "some
previously exported symbol name no longer appears as a substring of the new
content". The code instead tests the FULL regex match text (keywords
included): for old `export interface Foo` and new `export type Foo = 1`, the
symbol name `Foo` still appears in the new content (the claim says not
breaking), yet the code reports breaking because the text
`export interface Foo` is gone. -/
theorem spec_c4_counterexample :
    detectBreakingChange "typescript" "export interface Foo" "export type Foo = 1" = true
    ∧ specTsSymbolBreaking "export interface Foo" "export type Foo = 1" = false
    ∧ substrB "Foo" "export type Foo = 1" = true := by
  refine ⟨by decide, by decide, by decide⟩

/-- **C4 (amended).** When the publisher does not mark the change breaking and
a current version exists, the stored flag equals `detectBreakingChange`, which
satisfies: for `openapi`, breaking iff some path token of the old content is
absent from the set of path tokens matched in the new content (token-set
membership, not substring presence); for `typescript`, breaking iff some full
matched export-declaration text (keywords included, e.g.
`export interface Foo`) no longer appears as a substring of the new content;
for every other type, breaking iff more than 20% of the old content's
distinct trimmed non-blank lines are absent from the new content's lines. -/
theorem spec_c4_breaking_heuristic (ctype oldC newC : String) :
    (publishBreaking false (some oldC) ctype newC = detectBreakingChange ctype oldC newC)
    ∧ (ctype = "openapi" →
        (detectBreakingChange ctype oldC newC = true ↔
          ∃ p ∈ pathTokens oldC, p ∉ pathTokens newC))
    ∧ (ctype = "typescript" →
        (detectBreakingChange ctype oldC newC = true ↔
          ∃ e ∈ exportMatchTexts oldC, substrB e newC = false))
    ∧ (ctype ≠ "openapi" → ctype ≠ "typescript" →
        (detectBreakingChange ctype oldC newC = true ↔
          5 * removedLineCount oldC newC > (distinctTrimmedLines oldC).length)) := by
  refine ⟨rfl, ?_, ?_, ?_⟩
  · intro h
    subst h
    unfold detectBreakingChange
    simp only [beq_self_eq_true, if_true, List.any_eq_true, Bool.not_eq_true']
    constructor
    · rintro ⟨p, hp, hc⟩
      refine ⟨p, hp, fun hmem => ?_⟩
      have hc' : (pathTokens newC).contains p = true := by simp [hmem]
      rw [hc'] at hc
      cases hc
    · rintro ⟨p, hp, hmem⟩
      refine ⟨p, hp, ?_⟩
      cases hc : (pathTokens newC).contains p
      · rfl
      · exact absurd (by simpa using hc) hmem
  · intro h
    subst h
    unfold detectBreakingChange
    rw [if_neg (by decide)]
    simp only [beq_self_eq_true, if_true, List.any_eq_true, Bool.not_eq_true']
  · intro h1 h2
    unfold detectBreakingChange
    rw [if_neg (by simp [h1]), if_neg (by simp [h2])]
    exact decide_eq_true_iff

/-- Witness for `spec_c4_breaking_heuristic`: the generic-type 20%-line rule
at a concrete input. -/
theorem spec_c4_breaking_heuristic_witness :
    detectBreakingChange "jsonschema" "a\nb\nc\nd\ne" "a\nb\nc" = true ↔
      5 * removedLineCount "a\nb\nc\nd\ne" "a\nb\nc" > (distinctTrimmedLines "a\nb\nc\nd\ne").length :=
  (spec_c4_breaking_heuristic "jsonschema" "a\nb\nc\nd\ne" "a\nb\nc").2.2.2
    (by decide) (by decide)

/-- A concrete environment for exercising the execution-lock skip (its fields
are never reached when the lock is held). -/
def c8Env : ExecEnv :=
  { depStatuses := []
    targetFiles := []
    beforeSnapshot := []
    afterSnapshot := []
    patchPlan := ⟨"", [], [], ""⟩
    patchApplyOk := false
    patchApplyErr := ""
    editsApplyResult := none
    editsApplyErr := ""
    retryPlan := ⟨"", [], [], ""⟩
    retryApplyResult := none
    pkgScripts := none
    runCommandOk := fun _ => false
    gitResult := ⟨false, false, none, none⟩ }

/-- **C8 counterexample.** A trigger for a (room, task) pair whose execution
lock is already held is skipped silently (`continue`): the task row is
untouched and NO message — in particular no "a pass is already running"
notification — is sent from the lock-guarded loop, contradicting the claim
that the drop comes with such a notification. (The "already running" message
in the worker chat layer is keyed by (room, user), not by the per-(room, task)
Execution Lock.) -/
theorem spec_c8_counterexample :
    (runWorkerTaskPass ["room1:7"] "room1" c8Env ⟨7, "t", Status.todo, none⟩).messages = []
    ∧ (runWorkerTaskPass ["room1:7"] "room1" c8Env ⟨7, "t", Status.todo, none⟩).task
        = ⟨7, "t", Status.todo, none⟩
    ∧ (runWorkerTaskPass ["room1:7"] "room1" c8Env ⟨7, "t", Status.todo, none⟩).mutatedWorkspace
        = false := by
  refine ⟨rfl, rfl, rfl⟩

/-- **C8 (amended).** While the Execution Lock for a (room, task) pair is
held, a second trigger for the pair performs no task or workspace mutation,
emits no event and sends no message — it is dropped silently, not queued or
retried (an "already running" notification exists only in the per-(room, user)
chat-trigger gate, not at this lock) — and whenever a pass does run, the lock
set is restored unconditionally when it ends, on success and on every failure
path alike. -/
theorem spec_c8_execution_lock (locks : List String) (roomId : String) (env : ExecEnv)
    (task : TaskRec) :
    (locks.contains (lockKeyOf roomId task.id) = true →
      runWorkerTaskPass locks roomId env task =
        { task := task, messages := [], statusEvents := [], mutatedWorkspace := false,
          locksAfter := locks })
    ∧ (runWorkerTaskPass locks roomId env task).locksAfter = locks := by
  constructor
  · intro h
    unfold runWorkerTaskPass
    rw [if_pos h]
  · unfold runWorkerTaskPass
    by_cases h : locks.contains (lockKeyOf roomId task.id) = true
    · rw [if_pos h]
    · rw [if_neg h]

/-- Witness for `spec_c8_execution_lock`: the held-lock branch at a concrete
lock set and task. -/
theorem spec_c8_execution_lock_witness :
    runWorkerTaskPass ["r:1"] "r" c8Env ⟨1, "x", Status.in_progress, none⟩ =
      { task := ⟨1, "x", Status.in_progress, none⟩, messages := [], statusEvents := [],
        mutatedWorkspace := false, locksAfter := ["r:1"] } :=
  (spec_c8_execution_lock ["r:1"] "r" c8Env ⟨1, "x", Status.in_progress, none⟩).1 (by decide)

/-- **C3.** If a pass reaches the application stage and applying the patch or
file-edit set leaves every target file byte-identical to its before snapshot
(every snapshot lookup unchanged), the pass aborts as a no-op failure: the
task ends blocked with the no-op reason, never in review. -/
theorem spec_c3_noop_detection (locks : List String) (roomId : String) (env : ExecEnv)
    (task : TaskRec)
    (hlock : locks.contains (lockKeyOf roomId task.id) = false)
    (hdeps : env.depStatuses.any (fun s => s ≠ Status.done) = false)
    (htargets : env.targetFiles ≠ [])
    (hcontent : ¬(trimS env.patchPlan.patch = "" ∧ env.patchPlan.fileEdits = []))
    (happly : applyOutcome env ≠ none)
    (hnoop : ∀ f, snapLookup env.beforeSnapshot f = snapLookup env.afterSnapshot f) :
    (runWorkerTaskPass locks roomId env task).task.status = Status.blocked
    ∧ (runWorkerTaskPass locks roomId env task).task.blockedReason = some noopBlockReason
    ∧ (runWorkerTaskPass locks roomId env task).task.status ≠ Status.review := by
  obtain ⟨v, hv⟩ := Option.ne_none_iff_exists'.mp happly
  have hch : changedFilesFromSnapshots env.beforeSnapshot env.afterSnapshot = [] := by
    unfold changedFilesFromSnapshots
    exact List.filter_eq_nil_iff.mpr (fun k _ => by simp [hnoop k])
  have hpass : (runWorkerTaskPass locks roomId env task).task = (runTaskBody task env).1 := by
    unfold runWorkerTaskPass
    rw [if_neg (by simpa using hlock)]
  have hdeps' : ¬∃ x ∈ env.depStatuses, ¬x = Status.done := by simpa using hdeps
  have hbody : (runTaskBody task env).1.status = Status.blocked
      ∧ (runTaskBody task env).1.blockedReason = some noopBlockReason := by
    unfold runTaskBody
    simp [hdeps', htargets, hcontent, hv, hch]
  rw [hpass]
  exact ⟨hbody.1, hbody.2, by rw [hbody.1]; simp⟩

/-- A concrete environment reaching the no-op abort: the patch applies but the
after snapshot equals the before snapshot. -/
def c3Env : ExecEnv :=
  { depStatuses := [Status.done]
    targetFiles := ["src/a.ts"]
    beforeSnapshot := [("src/a.ts", some "x")]
    afterSnapshot := [("src/a.ts", some "x")]
    patchPlan := ⟨"diff --git a b", [], [], "s"⟩
    patchApplyOk := true
    patchApplyErr := ""
    editsApplyResult := none
    editsApplyErr := ""
    retryPlan := ⟨"", [], [], ""⟩
    retryApplyResult := none
    pkgScripts := none
    runCommandOk := fun _ => true
    gitResult := ⟨true, true, some "sha", none⟩ }

/-- Witness for `spec_c3_noop_detection` at a concrete environment. -/
theorem spec_c3_noop_detection_witness :
    (runWorkerTaskPass [] "room" c3Env ⟨3, "task", Status.todo, none⟩).task.status = Status.blocked
    ∧ (runWorkerTaskPass [] "room" c3Env ⟨3, "task", Status.todo, none⟩).task.blockedReason
        = some noopBlockReason :=
  ⟨(spec_c3_noop_detection [] "room" c3Env ⟨3, "task", Status.todo, none⟩
      (by decide) (by decide) (by decide) (by decide) (by decide) (fun _ => rfl)).1,
   (spec_c3_noop_detection [] "room" c3Env ⟨3, "task", Status.todo, none⟩
      (by decide) (by decide) (by decide) (by decide) (by decide) (fun _ => rfl)).2.1⟩

/-- **C10.** When `package.json` is missing or unparsable, every verification
command of package-manager run-script form is judged not runnable: the loop
never executes it, logs it as skipped (never as failed), and a pass whose
proposed commands are all of that form still completes — the skipping neither
blocks the task nor aborts the pass. -/
theorem spec_c10_missing_package_json :
    (∀ cmd : String, extractRunScriptName cmd ≠ none →
        canRunVerificationCommand none cmd = false)
    ∧ (∀ (runOk : String → Bool) (cmds : List String),
        (∀ c ∈ cmds, extractRunScriptName c ≠ none) →
          runVerification none runOk cmds = ⟨cmds.map VerifyLog.skipped, none, []⟩)
    ∧ (∀ (task : TaskRec) (env : ExecEnv),
        env.pkgScripts = none →
        (∀ c ∈ env.patchPlan.verificationCommands, extractRunScriptName c ≠ none) →
        env.depStatuses.any (fun s => s ≠ Status.done) = false →
        env.targetFiles ≠ [] →
        ¬(trimS env.patchPlan.patch = "" ∧ env.patchPlan.fileEdits = []) →
        applyOutcome env ≠ none →
        changedFilesFromSnapshots env.beforeSnapshot env.afterSnapshot ≠ [] →
        env.gitResult.committed = true →
        (runTaskBody task env).1.status = Status.review) := by
  have part1 : ∀ cmd : String, extractRunScriptName cmd ≠ none →
      canRunVerificationCommand none cmd = false := by
    intro cmd h
    unfold canRunVerificationCommand
    cases hs : isSafeVerificationCommand cmd
    · simp
    · cases hn : hasNodeEnvAssign cmd
      · cases he : extractRunScriptName cmd with
        | none => exact absurd he h
        | some s => simp
      · simp
  have part2 : ∀ (runOk : String → Bool) (cmds : List String),
      (∀ c ∈ cmds, extractRunScriptName c ≠ none) →
        runVerification none runOk cmds = ⟨cmds.map VerifyLog.skipped, none, []⟩ := by
    intro runOk cmds h
    induction cmds with
    | nil => rfl
    | cons c rest ih =>
      have hc : canRunVerificationCommand none c = false := part1 c (h c (by simp))
      have hrest := ih (fun x hx => h x (by simp [hx]))
      unfold runVerification
      rw [if_pos (by simp [hc]), hrest]
      simp
  refine ⟨part1, part2, ?_⟩
  intro task env hpkg hforms hdeps htargets hcontent happly hch hcommit
  obtain ⟨v, hv⟩ := Option.ne_none_iff_exists'.mp happly
  have hdeps' : ¬∃ x ∈ env.depStatuses, ¬x = Status.done := by simpa using hdeps
  have hver : (runVerification env.pkgScripts env.runCommandOk
      (if env.patchPlan.verificationCommands = [] then getFallbackVerificationCommands env.pkgScripts
       else env.patchPlan.verificationCommands)).failedCmd = none := by
    rw [hpkg]
    by_cases hvc : env.patchPlan.verificationCommands = []
    · rw [if_pos hvc]
      rfl
    · rw [if_neg hvc, part2 env.runCommandOk _ hforms]
  unfold runTaskBody
  simp [hdeps', htargets, hcontent, hv, hch, hver, hcommit]

/-- A concrete environment with a missing/unparsable package.json and one
run-script verification command; the edit changes the target file and the
commit succeeds. -/
def c10Env : ExecEnv :=
  { depStatuses := [Status.done]
    targetFiles := ["src/a.ts"]
    beforeSnapshot := [("src/a.ts", some "x")]
    afterSnapshot := [("src/a.ts", some "y")]
    patchPlan := ⟨"diff --git a b", [], ["npm run test"], "s"⟩
    patchApplyOk := true
    patchApplyErr := ""
    editsApplyResult := none
    editsApplyErr := ""
    retryPlan := ⟨"", [], [], ""⟩
    retryApplyResult := none
    pkgScripts := none
    runCommandOk := fun _ => false
    gitResult := ⟨true, true, some "sha", none⟩ }

/-- Witness for `spec_c10_missing_package_json` at a concrete command and
environment. -/
theorem spec_c10_missing_package_json_witness :
    canRunVerificationCommand none "npm run test" = false
    ∧ (runTaskBody ⟨4, "t", Status.todo, none⟩ c10Env).1.status = Status.review :=
  ⟨spec_c10_missing_package_json.1 "npm run test" (by decide),
   spec_c10_missing_package_json.2.2 ⟨4, "t", Status.todo, none⟩ c10Env rfl
     (by decide) (by decide) (by decide) (by decide) (by decide) (by decide) rfl⟩

/-! ### Store lemmas shared by the impact-analyzer and resolver claims -/

/-- With distinct task ids, two store members with the same id are equal. -/
theorem eq_of_mem_of_same_id : ∀ {tasks : List TaskRec},
    (tasks.map TaskRec.id).Nodup → ∀ {a b : TaskRec},
    a ∈ tasks → b ∈ tasks → a.id = b.id → a = b := by
  intro tasks
  induction tasks with
  | nil => intro _ a b ha; cases ha
  | cons t rest ih =>
    intro hN a b ha hb hid
    rw [List.map_cons, List.nodup_cons] at hN
    rcases List.mem_cons.mp ha with h1 | h1 <;> rcases List.mem_cons.mp hb with h2 | h2
    · rw [h1, h2]
    · exact absurd (hid ▸ List.mem_map_of_mem TaskRec.id h2) (h1 ▸ hN.1)
    · exact absurd (hid ▸ List.mem_map_of_mem TaskRec.id h1) (h2 ▸ hN.1)
    · exact ih hN.2 h1 h2 hid

/-- With distinct task ids, looking a member's id up finds that member. -/
theorem findTask_self : ∀ {tasks : List TaskRec},
    (tasks.map TaskRec.id).Nodup → ∀ {t : TaskRec}, t ∈ tasks →
    findTask tasks t.id = some t := by
  intro tasks
  induction tasks with
  | nil => intro _ t ht; cases ht
  | cons a rest ih =>
    intro hN t ht
    rw [List.map_cons, List.nodup_cons] at hN
    rcases List.mem_cons.mp ht with h1 | h1
    · subst h1
      unfold findTask
      rw [List.find?_cons_of_pos _ (by simp)]
    · unfold findTask
      rw [List.find?_cons_of_neg, ← findTask]
      · exact ih hN.2 h1
      · simp only [beq_iff_eq]
        intro heq
        exact hN.1 (heq ▸ List.mem_map_of_mem TaskRec.id h1)

/-- `find?` by id on an id-preserving rewrite of the store. -/
theorem findTask_map_of_id_preserving (tasks : List TaskRec) (g : TaskRec → TaskRec)
    (hg : ∀ t, (g t).id = t.id) (tid : Nat) :
    findTask (tasks.map g) tid = (findTask tasks tid).map g := by
  unfold findTask
  rw [List.find?_map]
  have hpred : ((fun t : TaskRec => t.id == tid) ∘ g) = (fun t : TaskRec => t.id == tid) :=
    funext fun t => by simp [Function.comp, hg t]
  rw [hpred]

/-- A Prisma update-by-id of an id-preserving rewrite of the store. -/
theorem updateTask_map (tasks : List TaskRec) (g : TaskRec → TaskRec)
    (hg : ∀ t, (g t).id = t.id) (tid : Nat) (u : TaskRec → TaskRec) :
    updateTask (tasks.map g) tid u
      = tasks.map (fun t => if t.id == tid then u (g t) else g t) := by
  unfold updateTask
  rw [List.map_map]
  exact List.map_congr_left (fun t _ => by simp [Function.comp, hg t])

/-- JS string append flattens to character-list append. -/
theorem toList_append (a b : String) : (a ++ b).toList = a.toList ++ b.toList := rfl

/-- A substring witness: `mid` occurs in `hay` between `s` and `t`. -/
theorem substrB_intro (mid hay : String) (s t : List Char)
    (h : s ++ mid.toList ++ t = hay.toList) : substrB mid hay = true := by
  unfold substrB
  exact decide_eq_true ⟨s, t, h⟩

/-- The impact analyzer's blocking loop, characterised against the initial
store: folding the per-snapshot step over any snapshot list, starting from a
store already rewritten at a set `q` of tasks, blocks exactly the tasks whose
snapshot qualifies (the step reads each snapshot's status, not the live row,
and the update is by id and idempotent). -/
theorem contractBlock_fold (reason : String) :
    ∀ (snaps tasks : List TaskRec) (q : TaskRec → Prop) [DecidablePred q],
    snaps.foldl (contractBlockStep reason)
        (tasks.map (fun t => if q t then blockWith reason t else t))
      = tasks.map (fun t =>
          if q t ∨ ∃ s ∈ snaps, s.id = t.id ∧ s.status ≠ Status.done ∧ s.status ≠ Status.blocked
          then blockWith reason t else t) := by
  intro snaps
  induction snaps with
  | nil =>
    intro tasks q _
    simp only [List.foldl_nil]
    refine List.map_congr_left (fun t _ => ?_)
    refine if_congr ?_ rfl rfl
    simp
  | cons s rest ih =>
    intro tasks q _
    rw [List.foldl_cons]
    by_cases hcond : s.status ≠ Status.done ∧ s.status ≠ Status.blocked
    · have hstep : contractBlockStep reason
          (tasks.map (fun t => if q t then blockWith reason t else t)) s
          = tasks.map (fun t => if q t ∨ s.id = t.id then blockWith reason t else t) := by
        unfold contractBlockStep
        rw [if_pos hcond,
          updateTask_map _ _ (fun t => by by_cases h : q t <;> simp [h, blockWith]) s.id]
        refine List.map_congr_left (fun t _ => ?_)
        by_cases h1 : t.id = s.id
        · rw [if_pos (by simp [h1])]
          by_cases h2 : q t
          · rw [if_pos h2, if_pos (Or.inl h2)]
            rfl
          · rw [if_neg h2, if_pos (Or.inr h1.symm)]
        · rw [if_neg (by simp [h1])]
          by_cases h2 : q t
          · rw [if_pos h2, if_pos (Or.inl h2)]
          · rw [if_neg h2, if_neg (by
              rintro (h | h)
              · exact h2 h
              · exact h1 h.symm)]
      rw [hstep, ih tasks (fun t => q t ∨ s.id = t.id)]
      refine List.map_congr_left (fun t _ => ?_)
      refine if_congr ?_ rfl rfl
      constructor
      · rintro ((hq | hid) | ⟨s', hs', h⟩)
        · exact Or.inl hq
        · exact Or.inr ⟨s, List.mem_cons_self _ _, hid, hcond.1, hcond.2⟩
        · exact Or.inr ⟨s', List.mem_cons_of_mem _ hs', h⟩
      · rintro (hq | ⟨s', hs', hid, hd, hb⟩)
        · exact Or.inl (Or.inl hq)
        · rcases List.mem_cons.mp hs' with h | h
          · exact Or.inl (Or.inr (h ▸ hid))
          · exact Or.inr ⟨s', h, hid, hd, hb⟩
    · have hstep : ∀ st, contractBlockStep reason st s = st := fun st => by
        unfold contractBlockStep
        rw [if_neg hcond]
      rw [hstep, ih tasks q]
      refine List.map_congr_left (fun t _ => ?_)
      refine if_congr ?_ rfl rfl
      constructor
      · rintro (hq | ⟨s', hs', h⟩)
        · exact Or.inl hq
        · exact Or.inr ⟨s', List.mem_cons_of_mem _ hs', h⟩
      · rintro (hq | ⟨s', hs', hid, hd, hb⟩)
        · exact Or.inl hq
        · rcases List.mem_cons.mp hs' with h | h
          · exact absurd ⟨h ▸ hd, h ▸ hb⟩ hcond
          · exact Or.inr ⟨s', h, hid, hd, hb⟩

/-- **C1.** On contract publish, for any explicit-or-detected breaking flag,
the impact analysis blocks exactly the tasks that depend on the contract and
are neither `done` nor `blocked`, setting a blocked-reason that contains the
contract name, the new version number and the publish summary; dependent
tasks already `done` or `blocked`, and all other tasks, are unchanged. -/
theorem spec_c1_impact_blocking (cid : Nat) (name : String) (ver : Nat) (breaking : Bool)
    (summary : String) (deps : List TaskContractDep) (tasks : List TaskRec)
    (hN : (tasks.map TaskRec.id).Nodup) :
    (masterHandleContractPublished cid name ver breaking summary deps tasks).1
      = tasks.map (fun t =>
          if (∃ d ∈ deps, d.contractId = cid ∧ d.taskId = t.id)
              ∧ t.status ≠ Status.done ∧ t.status ≠ Status.blocked
          then blockWith (mkContractBlockReason name ver summary) t else t)
    ∧ substrB name (mkContractBlockReason name ver summary) = true
    ∧ substrB (toString ver) (mkContractBlockReason name ver summary) = true
    ∧ substrB summary (mkContractBlockReason name ver summary) = true := by
  refine ⟨?_, ?_, ?_, ?_⟩
  · unfold masterHandleContractPublished
    set reason := mkContractBlockReason name ver summary with hreason
    have h0 : tasks
        = tasks.map (fun t => if (fun _ : TaskRec => False) t then blockWith reason t else t) := by
      simp
    have key : ∀ snaps : List TaskRec,
        snaps.foldl (contractBlockStep reason) tasks
          = tasks.map (fun t =>
              if ∃ s ∈ snaps, s.id = t.id ∧ s.status ≠ Status.done ∧ s.status ≠ Status.blocked
              then blockWith reason t else t) := by
      intro snaps
      conv_lhs => rw [h0]
      rw [contractBlock_fold]
      refine List.map_congr_left (fun t _ => ?_)
      refine if_congr ?_ rfl rfl
      simp
    refine Eq.trans (key _) ?_
    refine List.map_congr_left (fun t ht => ?_)
    refine if_congr ?_ rfl rfl
    constructor
    · rintro ⟨s, hs, hid, hd, hb⟩
      obtain ⟨d, hdmem, hfind⟩ := List.mem_filterMap.mp hs
      have hdc : d.contractId = cid := by
        have := (List.mem_filter.mp hdmem).2
        simpa using this
      have hsid : s.id = d.taskId := by
        have := List.find?_some hfind
        simpa using this
      have hst : s ∈ tasks := List.mem_of_find?_eq_some hfind
      have hseq : s = t := eq_of_mem_of_same_id hN hst ht hid
      subst hseq
      exact ⟨⟨d, (List.mem_filter.mp hdmem).1, hdc, hsid.symm⟩, hd, hb⟩
    · rintro ⟨⟨d, hdmem, hdc, hdt⟩, hd, hb⟩
      refine ⟨t, ?_, rfl, hd, hb⟩
      refine List.mem_filterMap.mpr ⟨d, List.mem_filter.mpr ⟨hdmem, by simpa using hdc⟩, ?_⟩
      rw [hdt]
      exact findTask_self hN ht
  · exact substrB_intro name _ "Contract \"".toList
      ("\" updated (v" ++ toString ver ++ "): " ++ summary).toList
      (by simp [mkContractBlockReason, toList_append, List.append_assoc])
  · exact substrB_intro (toString ver) _ ("Contract \"" ++ name ++ "\" updated (v").toList
      ("): " ++ summary).toList
      (by simp [mkContractBlockReason, toList_append, List.append_assoc])
  · exact substrB_intro summary _
      ("Contract \"" ++ name ++ "\" updated (v" ++ toString ver ++ "): ").toList []
      (by simp [mkContractBlockReason, toList_append, List.append_assoc])

/-- Witness for `spec_c1_impact_blocking`: two dependent tasks, one `done`
(unchanged) and one `in_progress` (blocked with the citing reason). -/
theorem spec_c1_impact_blocking_witness :
    (masterHandleContractPublished 9 "API" 2 false "sum"
        [⟨1, 9⟩, ⟨2, 9⟩]
        [⟨1, "a", Status.done, none⟩, ⟨2, "b", Status.in_progress, none⟩]).1
      = [⟨1, "a", Status.done, none⟩,
         ⟨2, "b", Status.blocked, some "Contract \"API\" updated (v2): sum"⟩] :=
  ((spec_c1_impact_blocking 9 "API" 2 false "sum"
      [⟨1, 9⟩, ⟨2, 9⟩]
      [⟨1, "a", Status.done, none⟩, ⟨2, "b", Status.in_progress, none⟩] (by decide)).1).trans
    (by decide)

/-- Unblocking a set of blocked tasks never changes which tasks are `done`, so
the resolver's per-iteration `allDeps` readiness check reads the same
from-task statuses in the live store as in the initial one. -/
theorem isDoneIn_map_unblock (tasks : List TaskRec) (q : TaskRec → Prop) [DecidablePred q]
    (hq : ∀ t ∈ tasks, q t → t.status = Status.blocked) (tid : Nat) :
    isDoneIn (tasks.map (fun t => if q t then unblockToTodo t else t)) tid
      = isDoneIn tasks tid := by
  unfold isDoneIn
  rw [findTask_map_of_id_preserving _ _
    (fun t => by by_cases h : q t <;> simp [h, unblockToTodo]) tid]
  cases hf : findTask tasks tid with
  | none => rfl
  | some s =>
    have hs : s ∈ tasks := List.mem_of_find?_eq_some hf
    by_cases h : q s
    · have hb : s.status = Status.blocked := hq s hs h
      simp [h, unblockToTodo, hb]
    · simp [h]

/-- The resolver's loop, characterised against the initial store: each
iteration reads its snapshot's status and reason, re-reads from-task statuses
from the live store (equal to the initial ones by `isDoneIn_map_unblock`),
and unblocks by id. -/
theorem depRes_fold (deps : List TaskDep) (tasks : List TaskRec)
    (hN : (tasks.map TaskRec.id).Nodup) :
    ∀ (snaps : List TaskRec) (q : TaskRec → Prop) [DecidablePred q],
    (∀ s ∈ snaps, s ∈ tasks) →
    (∀ t ∈ tasks, q t → t.status = Status.blocked) →
    snaps.foldl (depResolutionStep deps)
        (tasks.map (fun t => if q t then unblockToTodo t else t))
      = tasks.map (fun t =>
          if q t ∨ ∃ s ∈ snaps, s.id = t.id ∧ s.status = Status.blocked
              ∧ (∀ d ∈ deps.filter (fun e : TaskDep => e.toTaskId == s.id),
                   isDoneIn tasks d.fromTaskId = true)
              ∧ reasonMentionsDependency s = true
          then unblockToTodo t else t) := by
  intro snaps
  induction snaps with
  | nil =>
    intro q _ _ _
    simp only [List.foldl_nil]
    refine List.map_congr_left (fun t _ => ?_)
    refine if_congr ?_ rfl rfl
    simp
  | cons s rest ih =>
    intro q _ hs hq
    rw [List.foldl_cons]
    by_cases h1 : s.status = Status.blocked
    · have hsmem : s ∈ tasks := hs s (List.mem_cons_self _ _)
      have hgid : ∀ t : TaskRec, ((fun t => if q t then unblockToTodo t else t) t).id = t.id :=
        fun t => by by_cases h : q t <;> simp [h, unblockToTodo]
      have hiso := isDoneIn_map_unblock tasks q hq
      by_cases h2 : ((deps.filter (fun d => d.toTaskId == s.id)).all
          (fun d => isDoneIn tasks d.fromTaskId) = true) ∧ reasonMentionsDependency s = true
      · have hstep : depResolutionStep deps
            (tasks.map (fun t => if q t then unblockToTodo t else t)) s
            = tasks.map (fun t => if q t ∨ s.id = t.id then unblockToTodo t else t) := by
          unfold depResolutionStep
          rw [if_neg (not_not_intro h1)]
          simp only [hiso]
          rw [if_pos h2, updateTask_map _ _ hgid s.id]
          refine List.map_congr_left (fun t _ => ?_)
          by_cases ha : t.id = s.id
          · rw [if_pos (by simp [ha])]
            by_cases hb : q t
            · rw [if_pos hb, if_pos (Or.inl hb)]
              rfl
            · rw [if_neg hb, if_pos (Or.inr ha.symm)]
          · rw [if_neg (by simp [ha])]
            by_cases hb : q t
            · rw [if_pos hb, if_pos (Or.inl hb)]
            · rw [if_neg hb, if_neg (by
                rintro (h | h)
                · exact hb h
                · exact ha h.symm)]
        rw [hstep, ih (fun t => q t ∨ s.id = t.id)
          (fun x hx => hs x (List.mem_cons_of_mem _ hx))
          (fun t htm hqt => by
            rcases hqt with h | h
            · exact hq t htm h
            · exact (eq_of_mem_of_same_id hN hsmem htm h) ▸ h1)]
        refine List.map_congr_left (fun t _ => ?_)
        refine if_congr ?_ rfl rfl
        constructor
        · rintro ((hqt | hid) | ⟨s', hs', h⟩)
          · exact Or.inl hqt
          · exact Or.inr ⟨s, List.mem_cons_self _ _, hid, h1, List.all_eq_true.mp h2.1, h2.2⟩
          · exact Or.inr ⟨s', List.mem_cons_of_mem _ hs', h⟩
        · rintro (hqt | ⟨s', hs', hid, hbl, hall, hre⟩)
          · exact Or.inl (Or.inl hqt)
          · rcases List.mem_cons.mp hs' with h | h
            · exact Or.inl (Or.inr (h ▸ hid))
            · exact Or.inr ⟨s', h, hid, hbl, hall, hre⟩
      · have hstep : depResolutionStep deps
            (tasks.map (fun t => if q t then unblockToTodo t else t)) s
            = tasks.map (fun t => if q t then unblockToTodo t else t) := by
          unfold depResolutionStep
          rw [if_neg (not_not_intro h1)]
          simp only [hiso]
          rw [if_neg h2]
        rw [hstep, ih q (fun x hx => hs x (List.mem_cons_of_mem _ hx)) hq]
        refine List.map_congr_left (fun t _ => ?_)
        refine if_congr ?_ rfl rfl
        constructor
        · rintro (hqt | ⟨s', hs', h⟩)
          · exact Or.inl hqt
          · exact Or.inr ⟨s', List.mem_cons_of_mem _ hs', h⟩
        · rintro (hqt | ⟨s', hs', hid, hbl, hall, hre⟩)
          · exact Or.inl hqt
          · rcases List.mem_cons.mp hs' with h | h
            · subst h
              exact absurd ⟨List.all_eq_true.mpr (fun d hd => hall d hd), hre⟩ h2
            · exact Or.inr ⟨s', h, hid, hbl, hall, hre⟩
    · have hstep : ∀ st, depResolutionStep deps st s = st := fun st => by
        unfold depResolutionStep
        rw [if_pos h1]
      rw [hstep, ih q (fun x hx => hs x (List.mem_cons_of_mem _ hx)) hq]
      refine List.map_congr_left (fun t _ => ?_)
      refine if_congr ?_ rfl rfl
      constructor
      · rintro (hqt | ⟨s', hs', h⟩)
        · exact Or.inl hqt
        · exact Or.inr ⟨s', List.mem_cons_of_mem _ hs', h⟩
      · rintro (hqt | ⟨s', hs', hid, hbl, hall, hre⟩)
        · exact Or.inl hqt
        · rcases List.mem_cons.mp hs' with h | h
          · exact absurd (h ▸ hbl) h1
          · exact Or.inr ⟨s', h, hid, hbl, hall, hre⟩

/-- **C5.** Dependency resolution after task `c` completes rewrites the store
exactly at the dependent tasks that should unblock: a to-task of an edge out
of `c` transitions to `todo` with its reason cleared iff it is currently
blocked, every from-task of its dependency edges is done, and its blocked
reason mentions a dependency; every other task — in particular a dependent
that was never blocked — is untouched. -/
theorem spec_c5_dependency_resolution (tasks : List TaskRec) (deps : List TaskDep) (c : Nat)
    (hN : (tasks.map TaskRec.id).Nodup) :
    checkDependencyResolution tasks deps c
      = tasks.map (fun t => if shouldUnblock tasks deps c t = true then unblockToTodo t else t)
    ∧ ∀ t : TaskRec, t.status ≠ Status.blocked → shouldUnblock tasks deps c t = false := by
  constructor
  · unfold checkDependencyResolution
    have h0 : tasks
        = tasks.map (fun t => if (fun _ : TaskRec => False) t then unblockToTodo t else t) := by
      simp
    have key : ∀ snaps : List TaskRec, (∀ s ∈ snaps, s ∈ tasks) →
        snaps.foldl (depResolutionStep deps) tasks
          = tasks.map (fun t =>
              if ∃ s ∈ snaps, s.id = t.id ∧ s.status = Status.blocked
                  ∧ (∀ d ∈ deps.filter (fun e : TaskDep => e.toTaskId == s.id),
                       isDoneIn tasks d.fromTaskId = true)
                  ∧ reasonMentionsDependency s = true
              then unblockToTodo t else t) := by
      intro snaps hsm
      conv_lhs => rw [h0]
      rw [depRes_fold deps tasks hN snaps (fun _ => False) hsm (fun _ _ h => h.elim)]
      refine List.map_congr_left (fun t _ => ?_)
      refine if_congr ?_ rfl rfl
      simp
    refine Eq.trans (key _ ?_) ?_
    · intro s hsmem
      obtain ⟨d, _, hfind⟩ := List.mem_filterMap.mp hsmem
      exact List.mem_of_find?_eq_some hfind
    refine List.map_congr_left (fun t ht => ?_)
    refine if_congr ?_ rfl rfl
    unfold shouldUnblock
    constructor
    · rintro ⟨s, hsmem, hid, hbl, hall, hre⟩
      obtain ⟨d, hdmem, hfind⟩ := List.mem_filterMap.mp hsmem
      have hdc : d.fromTaskId = c := by
        have := (List.mem_filter.mp hdmem).2
        simpa using this
      have hsid : s.id = d.toTaskId := by
        have := List.find?_some hfind
        simpa using this
      have hst : s ∈ tasks := List.mem_of_find?_eq_some hfind
      have hseq : s = t := eq_of_mem_of_same_id hN hst ht hid
      subst hseq
      simp only [Bool.and_eq_true]
      refine ⟨⟨⟨?_, ?_⟩, ?_⟩, hre⟩
      · exact List.any_eq_true.mpr ⟨d, (List.mem_filter.mp hdmem).1, by simp [hdc, hsid.symm]⟩
      · simp [hbl]
      · exact List.all_eq_true.mpr (fun e he => hall e he)
    · intro h
      simp only [Bool.and_eq_true] at h
      obtain ⟨⟨⟨hany, hbl⟩, hall⟩, hre⟩ := h
      obtain ⟨d, hdmem, hd⟩ := List.any_eq_true.mp hany
      have hd' : d.fromTaskId = c ∧ d.toTaskId = t.id := by simpa using hd
      refine ⟨t, ?_, rfl, by simpa using hbl, List.all_eq_true.mp hall, hre⟩
      refine List.mem_filterMap.mpr ⟨d, List.mem_filter.mpr ⟨hdmem, by simp [hd'.1]⟩, ?_⟩
      rw [hd'.2]
      exact findTask_self hN ht
  · intro t ht
    unfold shouldUnblock
    have hb : (t.status == Status.blocked) = false := by simpa using ht
    simp [hb]

/-- Witness for `spec_c5_dependency_resolution`: after task 1 (`done`)
completes, its blocked dependent (reason citing a dependency) is unblocked to
`todo` and its never-blocked `todo` dependent is untouched. -/
theorem spec_c5_dependency_resolution_witness :
    checkDependencyResolution
        [⟨1, "B", Status.done, none⟩,
         ⟨2, "A", Status.blocked, some "waiting on dependency B"⟩,
         ⟨3, "C", Status.todo, none⟩]
        [⟨1, 2⟩, ⟨1, 3⟩] 1
      = [⟨1, "B", Status.done, none⟩,
         ⟨2, "A", Status.todo, none⟩,
         ⟨3, "C", Status.todo, none⟩] :=
  ((spec_c5_dependency_resolution
      [⟨1, "B", Status.done, none⟩,
       ⟨2, "A", Status.blocked, some "waiting on dependency B"⟩,
       ⟨3, "C", Status.todo, none⟩]
      [⟨1, 2⟩, ⟨1, 3⟩] 1 (by decide)).1).trans (by decide)

/-- Splitting a poll sequence: the reactor processes the second part from the
state the first part leaves. -/
theorem reactorRun_append (a : List Nat) : ∀ (st : List Nat) (b : List Nat),
    reactorRun st (a ++ b)
      = ((reactorRun (reactorRun st a).1 b).1,
         (reactorRun st a).2 ++ (reactorRun (reactorRun st a).1 b).2) := by
  induction a with
  | nil => intro st b; simp [reactorRun]
  | cons x xs ih => intro st b; simp [reactorRun, ih]

/-- Processing pairwise-distinct, unseen ids without reaching the eviction
bound appends them to the set and runs each id's side effects. -/
theorem reactorRun_fresh : ∀ (ids : List Nat) (st : List Nat),
    ids.Nodup → (∀ i ∈ ids, i ∉ st) → st.length + ids.length ≤ 10000 →
    reactorRun st ids = (st ++ ids, ids.map (fun i => (i, true))) := by
  intro ids
  induction ids with
  | nil => intro st _ _ _; simp [reactorRun]
  | cons i rest ih =>
    intro st hnd hfresh hlen
    have hci : st.contains i = false := by
      cases hc : st.contains i
      · rfl
      · exact absurd (by simpa using hc) (hfresh i (List.mem_cons_self _ _))
    have hlen1 : ¬ (st ++ [i]).length > 10000 := by
      simp only [List.length_append, List.length_cons, List.length_nil]
      simp only [List.length_cons] at hlen
      omega
    have hrec := ih (st ++ [i]) (List.nodup_cons.mp hnd).2
      (fun x hx => by
        simp only [List.mem_append, List.mem_singleton]
        rintro (h | h)
        · exact hfresh x (List.mem_cons_of_mem _ hx) h
        · exact (List.nodup_cons.mp hnd).1 (h ▸ hx))
      (by simp only [List.length_append, List.length_cons, List.length_nil]
          simp only [List.length_cons] at hlen
          omega)
    simp only [reactorRun, reactorStep, hci, Bool.false_eq_true, if_false, if_neg hlen1, hrec]
    simp

/-- **C7 counterexample.** Replaying event id 0 after 10000 other distinct
events have been processed produces its side effects twice: the insertion of
the 10001st id exceeds the bound, the oldest half (including id 0) is
evicted, and the replayed id 0 is no longer in the processed set. This
refutes "side effects exactly once" as an unconditional guarantee. -/
theorem spec_c7_counterexample :
    effectCount (0 :: (List.range' 1 10000 ++ [0])) 0 = 2 := by
  have hsplit : (0 :: (List.range' 1 10000 ++ [0]))
      = List.range' 0 10000 ++ ([10000] ++ [0]) := by
    have h1 : List.range' 0 10000 ++ List.range' 10000 1 = List.range' 0 10001 :=
      List.range'_append_1 0 10000 1
    have h2 : (0 : Nat) :: List.range' 1 10000 = List.range' 0 10001 := rfl
    have h3 : List.range' 10000 1 = [10000] := rfl
    rw [← List.cons_append, h2, ← h1, h3, List.append_assoc]
  have e1 : reactorRun [] (List.range' 0 10000)
      = (List.range' 0 10000, (List.range' 0 10000).map (fun i => (i, true))) := by
    have := reactorRun_fresh (List.range' 0 10000) [] (List.nodup_range' _ _)
      (by simp) (by simp)
    simpa using this
  have hc10000 : (List.range' 0 10000).contains 10000 = false := by
    cases hc : (List.range' 0 10000).contains 10000
    · rfl
    · have : (10000 : Nat) ∈ List.range' 0 10000 := by simpa using hc
      rw [List.mem_range'_1] at this
      omega
  have hsplitbig : List.range' 0 10001 = List.range' 0 5000 ++ List.range' 5000 5001 :=
    (List.range'_append_1 0 5000 5001).symm
  have e2 : reactorRun (List.range' 0 10000) [10000]
      = (List.range' 5000 5001, [(10000, true)]) := by
    simp only [reactorRun, reactorStep, hc10000, Bool.false_eq_true, if_false]
    rw [if_pos (by simp)]
    rw [show List.range' 0 10000 ++ [10000] = List.range' 0 10001 from
      (List.range'_append_1 0 10000 1)]
    rw [hsplitbig, List.drop_left' (by simp)]
  have hc0 : (List.range' 5000 5001).contains 0 = false := by
    cases hc : (List.range' 5000 5001).contains 0
    · rfl
    · have : (0 : Nat) ∈ List.range' 5000 5001 := by simpa using hc
      rw [List.mem_range'_1] at this
      omega
  have e3 : (reactorRun (List.range' 5000 5001) [0]).2 = [(0, true)] := by
    simp only [reactorRun, reactorStep, hc0, Bool.false_eq_true, if_false]
  unfold effectCount
  rw [hsplit, reactorRun_append, reactorRun_append, e1]
  simp only [e2, e3]
  rw [List.filter_append, List.filter_append, List.length_append, List.length_append]
  have hmid : (((List.range' 0 10000).map (fun i => (i, true))).filter
      (fun p => p.1 == 0 && p.2)).length = 1 := by
    rw [List.filter_map]
    rw [List.length_map]
    have : (List.range' 0 10000).filter ((fun p : Nat × Bool => p.1 == 0 && p.2) ∘ (fun i => (i, true)))
        = [0] := by
      rw [show List.range' 0 10000 = 0 :: List.range' 1 9999 from rfl]
      rw [List.filter_cons_of_pos (by simp)]
      rw [List.filter_eq_nil_iff.mpr (fun a ha => by
        rw [List.mem_range'_1] at ha
        simp only [Function.comp, Bool.and_eq_true, beq_iff_eq]
        rintro ⟨h, -⟩
        omega)]
    rw [this]
    rfl
  rw [hmid]
  rfl

/-- Below the eviction bound, each id's side effects run exactly once however
often it recurs in the polled sequence. -/
theorem reactorRun_effect_once : ∀ (ids st : List Nat) (target : Nat),
    st.length + ids.length ≤ 10000 →
    ((reactorRun st ids).2.filter (fun p => p.1 == target && p.2)).length
      = if target ∈ ids ∧ target ∉ st then 1 else 0 := by
  intro ids
  induction ids with
  | nil =>
    intro st t _
    simp [reactorRun]
  | cons i rest ih =>
    intro st t hlen
    simp only [List.length_cons] at hlen
    cases hci : st.contains i with
    | true =>
      have hmem : i ∈ st := by simpa using hci
      simp only [reactorRun, reactorStep, hci, if_true]
      rw [List.filter_cons_of_neg (by simp)]
      rw [ih st t (by omega)]
      refine if_congr ?_ rfl rfl
      constructor
      · rintro ⟨h1, h2⟩
        exact ⟨List.mem_cons_of_mem _ h1, h2⟩
      · rintro ⟨h1, h2⟩
        rcases List.mem_cons.mp h1 with h | h
        · exact absurd (h ▸ hmem) h2
        · exact ⟨h, h2⟩
    | false =>
      have hfresh : i ∉ st := fun h => by simp [h] at hci
      have hnoev : ¬ (st ++ [i]).length > 10000 := by
        simp only [List.length_append, List.length_cons, List.length_nil]
        omega
      have hlen' : (st ++ [i]).length + rest.length ≤ 10000 := by
        simp only [List.length_append, List.length_cons, List.length_nil]
        omega
      simp only [reactorRun, reactorStep, hci, Bool.false_eq_true, if_false, if_neg hnoev]
      by_cases ht : t = i
      · subst ht
        rw [List.filter_cons_of_pos (by simp)]
        rw [List.length_cons]
        rw [ih (st ++ [t]) t hlen']
        rw [if_neg (show ¬(t ∈ rest ∧ t ∉ st ++ [t]) by simp)]
        rw [if_pos (show t ∈ t :: rest ∧ t ∉ st from ⟨List.mem_cons_self _ _, hfresh⟩)]
      · rw [List.filter_cons_of_neg
          (by simp only [Bool.and_eq_true, beq_iff_eq]; rintro ⟨h, -⟩; exact ht h.symm)]
        rw [ih (st ++ [i]) t hlen']
        refine if_congr ?_ rfl rfl
        constructor
        · rintro ⟨h1, h2⟩
          refine ⟨List.mem_cons_of_mem _ h1, fun h => h2 ?_⟩
          exact List.mem_append.mpr (Or.inl h)
        · rintro ⟨h1, h2⟩
          refine ⟨(List.mem_cons.mp h1).resolve_left ht, fun h => ?_⟩
          rcases List.mem_append.mp h with h | h
          · exact h2 h
          · exact ht (by simpa using h)

/-- **C7 (amended).** An event id already in the processed set is skipped with
no side effects and no state change (that is the dedup mechanism); the
processed set stays bounded (never above 10000 entries going in means never
above 10000 coming out, via oldest-half eviction); and as long as the polled
sequence stays within the eviction bound, every id's side effects run exactly
once — but eviction can re-admit an id, see the counterexample. -/
theorem spec_c7_event_dedup :
    (∀ (st : List Nat) (id : Nat), st.contains id = true → reactorStep st id = (st, false))
    ∧ (∀ (st : List Nat) (id : Nat), st.length ≤ 10000 →
        ((reactorStep st id).1).length ≤ 10000)
    ∧ (∀ (ids : List Nat) (target : Nat), ids.length ≤ 10000 →
        effectCount ids target = if target ∈ ids then 1 else 0) := by
  refine ⟨?_, ?_, ?_⟩
  · intro st id h
    unfold reactorStep
    rw [if_pos h]
  · intro st id h
    cases hc : st.contains id with
    | true =>
      unfold reactorStep
      rw [if_pos hc]
      exact h
    | false =>
      simp only [reactorStep, hc, Bool.false_eq_true, if_false]
      by_cases hb : (st ++ [id]).length > 10000
      · rw [if_pos hb]
        simp only [List.length_drop, List.length_append, List.length_cons, List.length_nil]
        omega
      · rw [if_neg hb]
        simp only [List.length_append, List.length_cons, List.length_nil] at hb ⊢
        omega
  · intro ids target hlen
    unfold effectCount
    rw [reactorRun_effect_once ids [] target (by simpa using hlen)]
    refine if_congr ?_ rfl rfl
    simp

/-- Witness for `spec_c7_event_dedup`: a duplicated id in a short sequence is
processed once, and the duplicate hits the in-set skip. -/
theorem spec_c7_event_dedup_witness :
    reactorStep [5] 5 = ([5], false) ∧ effectCount [5, 5] 5 = 1 :=
  ⟨spec_c7_event_dedup.1 [5] 5 (by decide),
   (spec_c7_event_dedup.2.2 [5, 5] 5 (by decide)).trans (by decide)⟩
